import Mathlib

/-!
Formal model of the `web_map` film-locations program: the geocode cache
builder (`locbase_create.py`) and the nearest-location query path
(`main.py`).

Modelling conventions:
* Python strings are lists of characters (`Str`);
* `s.split(sep)` / `sep.join(…)` are `splitSeq` / `List.intercalate`;
* the external geocoder (`geopy`) and the external `haversine` library
  are oracle parameters;
* fallible Python code (uncaught `IndexError` / `ValueError` /
  `KeyError` / `AttributeError`) is modelled with `Option` / `Except` /
  an explicit failure constructor;
* a Python `set` read back as lines of a file is modelled as a list of
  the distinct lines in an (unspecified, here: first-occurrence)
  iteration order.
-/

/-- Python strings, modelled as lists of characters. -/
abbrev Str := List Char

/-- Coerce a Lean string literal to the model type. -/
def str (s : String) : Str := s.data

/-- Fuel-driven worker for Python `s.split(sep)` with a nonempty
separator: leftmost, non-overlapping occurrences of `sep` cut `s` into
chunks.  The fuel only serves to make the recursion structural; any
fuel larger than `s.length` gives the same answer
(`splitGo_fuel_congr`). -/
def splitGo (sep : Str) : Nat → Str → List Str
  | 0, s => [s]
  | fuel + 1, s =>
    if sep ≠ [] ∧ s.take sep.length = sep then
      [] :: splitGo sep fuel (s.drop sep.length)
    else
      match s with
      | [] => [[]]
      | c :: rest =>
        match splitGo sep fuel rest with
        | [] => [[c]]
        | chunk :: more => (c :: chunk) :: more

/-- Python `s.split(sep)` for a nonempty separator `sep`. -/
def splitSeq (sep s : Str) : List Str :=
  splitGo sep (s.length + 1) s

/-- Python substring test `needle in hay`. -/
def strContains (needle : Str) : Str → Bool
  | [] => decide (needle = [])
  | c :: rest =>
    decide ((c :: rest).take needle.length = needle) || strContains needle rest

/-- Model of CPython `float(s)` acceptance, restricted to the plain
decimal forms the cache file uses: an optional leading sign followed by
digits and at most one decimal point, with at least one digit (no
exponent, `inf`/`nan` or surrounding-whitespace forms). -/
def isPyFloat (s : Str) : Bool :=
  let t := if s.take 1 = ['+'] ∨ s.take 1 = ['-'] then s.drop 1 else s
  t.all (fun c => c.isDigit || decide (c = '.')) &&
    t.any Char.isDigit &&
    decide ((t.filter (fun c => decide (c = '.'))).length ≤ 1)

/-- The separator `", "`. -/
def commaSpace : Str := [',', ' ']

/-- Address canonicalization, performed inline by
`main.get_coordinates` (main.py line 95) and by
`locbase_create.write_base` (locbase_create.py line 31):
`', '.join(address.split(', ')[-3:])`.  Python's `[-3:]` on a list of
length `n` is `drop (n - 3)` (the whole list when `n ≤ 3`). -/
def cut_address (address : Str) : Str :=
  commaSpace.intercalate ((splitSeq commaSpace address).drop
    ((splitSeq commaSpace address).length - 3))

/-- Outcome of `main.get_coordinates`: a coordinate pair (the two
space-separated numeric fields of the matched line, kept as their
literal text — Python converts them with `float`, which round-trips),
a `None` return, or an uncaught exception (`IndexError` from a line
without a tab or with a one-field coordinate part, `ValueError` from
`float` on a non-numeric field). -/
inductive LookupResult where
  | found (first second : Str)
  | absent
  | crash
deriving DecidableEq

/-- Parsing of the matched cache line inside `get_coordinates`
(main.py lines 98-101): the part after the first tab is split on
spaces; the first space-field and the second space-field minus its
final character are converted by `float`. -/
def parseLine (line : Str) : LookupResult :=
  match (splitSeq ['\t'] line).drop 1 with
  | [] => .crash
  | p :: _ =>
    match splitSeq [' '] p with
    | [] => .crash
    | f0 :: fs =>
      match fs with
      | [] => .crash
      | f1 :: _ =>
        if isPyFloat f0 && isPyFloat (f1.dropLast) then .found f0 (f1.dropLast)
        else .crash

/-- `main.get_coordinates` (main.py lines 81-103): canonicalize the
queried address, then scan the stored lines for the first one
*containing* the canonical address as a substring
(`if cut_address in baseaddress_and_coordinate:`); that line is parsed
positionally and returned.  Falling off the loop returns `None`.
`lines` is the cache file's distinct lines in iteration order (the
source reads them into a `set`). -/
def get_coordinates (address : Str) (lines : List Str) : LookupResult :=
  match lines.find? (fun line => strContains (cut_address address) line) with
  | none => .absent
  | some line => parseLine line

/-- A persisted cache line as written by the cache builder
(locbase_create.py lines 41-42 and 107-108):
`key + '\t' + first + ' ' + second + '\n'`. -/
def mkLine (key first second : Str) : Str :=
  key ++ '\t' :: (first ++ ' ' :: (second ++ ['\n']))

/-- One entry of the `stat` list built by `main.create_stat`
(main.py line 150): `[film, address, distance, address_coordinates]`;
`x[2]` is the sort key and `x[-1]` the deduplication key. -/
structure StatItem where
  film : Str
  address : Str
  dist : ℚ
  coords : Str × Str
deriving DecidableEq

/-- The comparison behind `stat.sort(key=lambda x: x[2])`. -/
def distLE (x y : StatItem) : Prop := x.dist ≤ y.dist

instance : DecidableRel distLE := fun x y =>
  inferInstanceAs (Decidable (x.dist ≤ y.dist))

instance : IsTotal StatItem distLE := ⟨fun x y => le_total x.dist y.dist⟩

instance : IsTrans StatItem distLE := ⟨fun _ _ _ h1 h2 => le_trans h1 h2⟩

/-- The loop of `main.create_stat` (lines 141-150) before the sort:
a record whose lookup returns `None` is skipped (`if
address_coordinates:` — a pair is always truthy), a found record
contributes one entry with its distance from the reference point, and
a lookup crash aborts the whole call.  `dist` is the oracle for the
external `haversine`-based `calculate_distance` with the reference
point fixed. -/
def create_statAux (dist : Str × Str → ℚ) (cacheLines : List Str) :
    List (Str × Str) → Option (List StatItem)
  | [] => some []
  | (film, address) :: rest =>
    match get_coordinates address cacheLines with
    | .crash => none
    | .absent => create_statAux dist cacheLines rest
    | .found la lo =>
      (create_statAux dist cacheLines rest).map
        (fun r => ⟨film, address, dist (la, lo), (la, lo)⟩ :: r)

/-- `main.create_stat` (lines 124-153): build the stat list, then
`stat.sort(key=lambda x: x[2])` — Python's stable ascending sort,
modelled by insertion sort under `distLE`. -/
def create_stat (dist : Str × Str → ℚ) (nas : List (Str × Str))
    (cacheLines : List Str) : Option (List StatItem) :=
  (create_statAux dist cacheLines nas).map (List.insertionSort distLE)

/-- The unsorted retained list: exactly the records whose cache lookup
finds coordinates, in input order, each with its distance. -/
def keptItems (dist : Str × Str → ℚ) (cacheLines : List Str)
    (nas : List (Str × Str)) : List StatItem :=
  nas.filterMap (fun fa =>
    match get_coordinates fa.2 cacheLines with
    | .found la lo => some ⟨fa.1, fa.2, dist (la, lo), (la, lo)⟩
    | _ => none)

/-- The walk of `main.filter_stat` (lines 166-174): while fewer than
10 distinct coordinate pairs have been seen, append the next entry and
record its coordinates; `stat[index]` past the end raises
(`none`). -/
def filter_go (seen : Finset (Str × Str)) (acc : List StatItem) :
    List StatItem → Option (List StatItem)
  | [] => if seen.card = 10 then some acc else none
  | x :: rest' =>
    if seen.card = 10 then some acc
    else filter_go (insert x.coords seen) (acc ++ [x]) rest'

/-- `main.filter_stat` (lines 156-174). -/
def filter_stat (stat : List StatItem) : Option (List StatItem) :=
  filter_go ∅ [] stat

/-- Insertion into the insertion-ordered Python dict of
`main.create_dict` (lines 73-76): append the film to an existing
year's list, else add a new key at the end. -/
def dictInsert (d : List (Str × List (Str × Str))) (k : Str)
    (v : Str × Str) : List (Str × List (Str × Str)) :=
  match d with
  | [] => [(k, [v])]
  | (k', vs) :: rest =>
    if k' = k then (k', vs ++ [v]) :: rest else (k', vs) :: dictInsert rest k v

/-- `main.create_dict` (lines 57-78): group films by release year,
keeping only records whose year is 4 characters, all numeric
(`isnumeric` restricted to ASCII digits, as in the dataset). -/
def create_dict (clean_info : List (Str × Str × Str)) :
    List (Str × List (Str × Str)) :=
  clean_info.foldl
    (fun d p =>
      if p.2.1.all Char.isDigit && decide (p.2.1.length = 4) then
        dictInsert d p.2.1 (p.1, p.2.2)
      else d) []

/-- Python dict lookup `films_by_years[year]`. -/
def dictFind (d : List (Str × List (Str × Str))) (k : Str) :
    Option (List (Str × Str)) :=
  match d with
  | [] => none
  | (k', vs) :: rest => if k' = k then some vs else dictFind rest k

/-- Python `s.endswith(t)`. -/
def pyEndsWith (s t : Str) : Bool := decide (s.drop (s.length - t.length) = t)

/-- One iteration of `main.parse_lines` (lines 42-52); `none` models
the uncaught `ValueError` from `.index('(')` when the first tab-field
has no `'('`, or the `IndexError` from `split('\t')[-2]` on a line
with a single tab-field whose text ends in `')\n'`. -/
def parse_line (line : Str) : Option (Str × Str × Str) :=
  let parts := splitSeq ['\t'] line
  let first := parts.headI
  match first.findIdx? (fun c => decide (c = '(')) with
  | none => none
  | some pi =>
    let film := if pi = 0 then first.dropLast else first.take (pi - 1)
    let year := (first.drop (pi + 1)).take 4
    if pyEndsWith (parts.getLastD []) [')', '\n'] then
      if 2 ≤ parts.length then
        some (film, year, parts.getD (parts.length - 2) [])
      else none
    else
      some (film, year, (parts.getLastD []).dropLast)

/-- `main.parse_lines` (lines 31-54); fails if any line fails. -/
def parse_lines (lines : List Str) : Option (List (Str × Str × Str)) :=
  lines.mapM parse_line

/-- Failure sites of `main.main` (lines 318-340), one per uncaught
Python exception: `parseFailure` from `parse_lines`, `unknownYear`
from the `films_by_year[year]` `KeyError`, `lookupCrash` from a
malformed matched cache line inside `create_stat`,
`insufficientCandidates` from `filter_stat` walking past the end of
`stat`. -/
inductive QueryError where
  | parseFailure
  | unknownYear
  | lookupCrash
  | insufficientCandidates
deriving DecidableEq

/-- `main.main` (lines 318-340) up to the data handed to the renderer
(named `webmap_main` here because Lean reserves `main`)
(`create_map` only draws): `read_file` keeps `readlines()[14:-1]`
(`drop 14` then `dropLast`), then `parse_lines`, `create_dict`, the
year lookup, `create_stat` and `filter_stat`. -/
def webmap_main (imdbLines : List Str) (year : Str) (dist : Str × Str → ℚ)
    (cacheLines : List Str) : Except QueryError (List StatItem) :=
  match parse_lines ((imdbLines.drop 14).dropLast) with
  | none => .error .parseFailure
  | some clean_info =>
    match dictFind (create_dict clean_info) year with
    | none => .error .unknownYear
    | some nas =>
      match create_stat dist nas cacheLines with
      | none => .error .lookupCrash
      | some stat =>
        match filter_stat stat with
        | none => .error .insufficientCandidates
        | some markers => .ok markers

/-- Running state of `locbase_create.write_base` (lines 25-49): the
`cashed` seen-key set (as the list of keys in insertion order), the
addresses submitted to the geocoder, and the cache lines appended so
far. -/
structure BaseRun where
  cashed : List Str
  calls : List Str
  lines : List Str
deriving DecidableEq

/-- One loop iteration of `write_base` (lines 30-47): canonicalize the
record's address; skip it if already seen; otherwise remember it,
submit it to the geocoder, and on success append
`address + '\t' + str(location.latitude) + ' ' +
str(location.longitude) + '\n'`; a geocoder failure (no result, or any
exception) only prints. -/
def write_base_step (geo : Str → Option (Str × Str)) (run : BaseRun)
    (point : Str × Str × Str) : BaseRun :=
  let address := cut_address point.2.2
  if address ∈ run.cashed then run
  else
    match geo address with
    | some (la, lo) =>
      ⟨run.cashed ++ [address], run.calls ++ [address],
        run.lines ++ [mkLine address la lo]⟩
    | none => ⟨run.cashed ++ [address], run.calls ++ [address], run.lines⟩

/-- The loop of `write_base` over the record list. -/
def write_baseGo (geo : Str → Option (Str × Str)) :
    List (Str × Str × Str) → BaseRun → BaseRun
  | [], run => run
  | p :: rest, run => write_baseGo geo rest (write_base_step geo run p)

/-- `locbase_create.write_base` (lines 13-49) as a function of the
geocoder oracle `geo` (returning `(latitude, longitude)` as rendered
by `str`, or `none` for any failure) and the parsed records. -/
def write_base (geo : Str → Option (Str × Str))
    (clean_info : List (Str × Str × Str)) : BaseRun :=
  write_baseGo geo clean_info ⟨[], [], []⟩

/-- The key under which a persisted line is read back:
`line.split('\t')[0]` (locbase_create.py line 76). -/
def lineKey (line : Str) : Str := (splitSeq ['\t'] line).headI

/-- `locbase_create.create_file_with_unique_addresses` (lines 52-62):
read the file's lines into a `set` and write the set back — only
exact duplicate lines collapse.  The set is modelled as the list of
distinct lines (first occurrence kept; the source's write order is
arbitrary). -/
def create_file_with_unique_addresses (lines : List Str) : List Str :=
  lines.dedup

/-- `locbase_create.find_not_found_addresses` (lines 65-85) as the set
it writes: every canonical address of the records (plus `'\n'`) that
does not appear as the key (`line.split('\t')[0] + '\n'`) of a stored
line. -/
def find_not_found_addresses (srcLines : List Str)
    (clean_info : List (Str × Str × Str)) : Finset Str :=
  ((clean_info.map (fun p => cut_address p.2.2 ++ ['\n'])).toFinset) \
    ((srcLines.map (fun line => lineKey line ++ ['\n'])).toFinset)

/-- `locbase_create.continuous_location_update` (lines 88-110): for
each not-found address (a key plus `'\n'`), try the geocoder and on
success append `address[:-1] + '\t' + str(lat) + ' ' + str(lon) +
'\n'` to the cache; failures are ignored (`except: pass`); an empty
not-found set writes nothing (`exit()`).  `notFound` enumerates the
not-found file's lines in iteration order. -/
def continuous_location_update (geo : Str → Option (Str × Str))
    (notFound : List Str) (locbase : List Str) : List Str :=
  locbase ++ notFound.filterMap
    (fun a => (geo a).map (fun c => mkLine a.dropLast c.1 c.2))

/-- Geocoder oracle used in concrete runs: resolves exactly
`"Paris, France"`, to latitude `48.8566` / longitude `2.3522`. -/
def geoParis : Str → Option (Str × Str) := fun a =>
  if a = str "Paris, France" then some (str "48.8566", str "2.3522")
  else none

/-- Geocoder oracle that resolves every address to a fixed point. -/
def geoAny : Str → Option (Str × Str) := fun _ =>
  some (str "1.0", str "2.0")

/-- Ten ranked candidates with pairwise-distinct coordinate pairs. -/
def tenDistinct : List StatItem :=
  (List.range 10).map
    (fun i => ⟨[], [], 0, (List.replicate i 'x', [])⟩)

theorem splitGo_fuel_congr (sep : Str) :
    ∀ fuel fuel' s, s.length < fuel → s.length < fuel' →
      splitGo sep fuel s = splitGo sep fuel' s := by
  intro fuel
  induction fuel with
  | zero => intro fuel' s h _; omega
  | succ f ih =>
    intro fuel' s h h'
    match fuel', h' with
    | f' + 1, h' =>
      show splitGo sep (f + 1) s = splitGo sep (f' + 1) s
      by_cases hc : sep ≠ [] ∧ s.take sep.length = sep
      · have hsep : sep.length ≥ 1 := by
          cases sep with
          | nil => exact absurd rfl hc.1
          | cons a t => simp
        have hs : s ≠ [] := by
          intro hnil
          subst hnil
          exact hc.1 (by simpa using hc.2.symm)
        have hslen : s.length ≥ 1 := by
          cases s with
          | nil => exact absurd rfl hs
          | cons a t => simp
        have hdrop : (s.drop sep.length).length < f := by
          rw [List.length_drop]; omega
        have hdrop' : (s.drop sep.length).length < f' := by
          rw [List.length_drop]; omega
        simp only [splitGo, if_pos hc]
        rw [ih f' (s.drop sep.length) hdrop hdrop']
      · simp only [splitGo, if_neg hc]
        match s, h, h' with
        | [], _, _ => rfl
        | c :: rest, h, h' =>
          have h1 : rest.length < f := by simp at h; omega
          have h2 : rest.length < f' := by simp at h'; omega
          simp only [ih f' rest h1 h2]

/-- Unfolding: splitting the empty string yields one empty chunk
(Python `"".split(sep) == [""]`). -/
theorem splitSeq_nil (sep : Str) : splitSeq sep [] = [[]] := by
  cases sep with
  | nil => simp [splitSeq, splitGo]
  | cons a t => simp [splitSeq, splitGo]

/-- Unfolding: when `sep` starts the string, an empty chunk is emitted
and splitting resumes after the separator. -/
theorem splitSeq_sep_start (sep s : Str) (hsep : sep ≠ [])
    (h : s.take sep.length = sep) (hs : s ≠ []) :
    splitSeq sep s = [] :: splitSeq sep (s.drop sep.length) := by
  have hsl : sep.length ≥ 1 := by
    cases sep with
    | nil => exact absurd rfl hsep
    | cons a t => simp
  have hsl2 : s.length ≥ 1 := by
    cases s with
    | nil => exact absurd rfl hs
    | cons a t => simp
  show splitGo sep (s.length + 1) s = _
  have hslen : sep.length ≤ s.length := by
    have := congrArg List.length h
    simp at this
    omega
  simp only [splitGo, if_pos (And.intro hsep h)]
  congr 1
  apply splitGo_fuel_congr
  · rw [List.length_drop]; omega
  · rw [List.length_drop]; omega

/-- Unfolding: when `sep` does not start the string, the first
character joins the first chunk of the rest's splitting. -/
theorem splitSeq_cons (sep : Str) (c : Char) (rest : Str)
    (h : ¬ (c :: rest).take sep.length = sep) :
    splitSeq sep (c :: rest) =
      match splitSeq sep rest with
      | [] => [[c]]
      | chunk :: more => (c :: chunk) :: more := by
  show splitGo sep ((c :: rest).length + 1) (c :: rest) = _
  have hc : ¬ (sep ≠ [] ∧ (c :: rest).take sep.length = sep) := by
    intro hh; exact h hh.2
  simp only [splitGo, if_neg hc]
  have : splitGo sep (rest.length + 1 + 1 - 1) rest = splitSeq sep rest := by
    show splitGo sep (rest.length + 1) rest = splitGo sep (rest.length + 1) rest
    rfl
  show (match splitGo sep (rest.length + 1) rest with
        | [] => [[c]]
        | chunk :: more => (c :: chunk) :: more) = _
  rfl

theorem splitGo_ne_nil (sep : Str) : ∀ fuel s, splitGo sep fuel s ≠ [] := by
  intro fuel s
  match fuel with
  | 0 => simp [splitGo]
  | f + 1 =>
    by_cases hc : sep ≠ [] ∧ s.take sep.length = sep
    · simp [splitGo, if_pos hc]
    · simp only [splitGo, if_neg hc]
      match s with
      | [] => simp
      | c :: rest =>
        cases hr : splitGo sep f rest with
        | nil => simp [hr]
        | cons chunk more => simp [hr]

/-- `splitSeq` never returns the empty list of chunks. -/
theorem splitSeq_ne_nil (sep s : Str) : splitSeq sep s ≠ [] :=
  splitGo_ne_nil sep (s.length + 1) s

theorem intercalate_single (sep a : Str) : sep.intercalate [a] = a := by
  simp [List.intercalate]

theorem intercalate_cons₂ (sep a b : Str) (t : List Str) :
    sep.intercalate (a :: b :: t) = a ++ sep ++ sep.intercalate (b :: t) := by
  simp [List.intercalate, List.intersperse_cons_cons, List.append_assoc]

/-- Python round trip: `sep.join(s.split(sep)) == s` (nonempty `sep`). -/
theorem intercalate_splitSeq (sep : Str) (hsep : sep ≠ []) (s : Str) :
    sep.intercalate (splitSeq sep s) = s := by
  suffices key : ∀ n s, s.length = n → sep.intercalate (splitSeq sep s) = s by
    exact key s.length s rfl
  intro n
  induction n using Nat.strong_induction_on with
  | _ n ih =>
    intro s hs
    subst hs
    match s with
    | [] => rw [splitSeq_nil, intercalate_single]
    | x :: s' =>
      by_cases h : (x :: s').take sep.length = sep
      · have hslen : sep.length ≤ (x :: s').length := by
          have := congrArg List.length h
          simpa using (by omega : sep.length ⊓ (s'.length + 1) = sep.length → sep.length ≤ s'.length + 1)
            (by simpa [Nat.min_def] using this)
        have hsl : 1 ≤ sep.length := by
          cases sep with
          | nil => exact absurd rfl hsep
          | cons a t => simp
        rw [splitSeq_sep_start sep (x :: s') hsep h (by simp)]
        set t := (x :: s').drop sep.length with ht
        have htlen : t.length < (x :: s').length := by
          rw [ht, List.length_drop]
          simp only [List.length_cons]
          omega
        cases hr : splitSeq sep t with
        | nil => exact absurd hr (splitSeq_ne_nil sep t)
        | cons r0 rtl =>
          rw [intercalate_cons₂]
          have : sep.intercalate (splitSeq sep t) = t := ih t.length htlen t rfl
          rw [hr] at this
          rw [this]
          simp only [List.nil_append]
          calc sep ++ t = (x :: s').take sep.length ++ (x :: s').drop sep.length := by rw [h, ht]
            _ = x :: s' := List.take_append_drop _ _
      · rw [splitSeq_cons sep x s' h]
        cases hr : splitSeq sep s' with
        | nil => exact absurd hr (splitSeq_ne_nil sep s')
        | cons chunk more =>
          have hrec : sep.intercalate (splitSeq sep s') = s' :=
            ih s'.length (by simp) s' rfl
          rw [hr] at hrec
          cases more with
          | nil =>
            rw [intercalate_single] at hrec
            simp only [intercalate_single]
            rw [hrec]
          | cons m1 mt =>
            rw [intercalate_cons₂] at hrec ⊢
            simp only [List.cons_append]
            rw [hrec]

/-- Splitting on a single character that does not occur leaves the
string whole (Python `s.split(c) == [s]` when `c not in s`). -/
theorem splitSeq_single_of_not_mem (c : Char) (s : Str) (h : c ∉ s) :
    splitSeq [c] s = [s] := by
  induction s with
  | nil => exact splitSeq_nil [c]
  | cons x rest ih =>
    have hx : x ≠ c := fun hxc => h (by simp [hxc])
    have hr : c ∉ rest := fun hm => h (List.mem_cons_of_mem x hm)
    have htake : ¬ (x :: rest).take ([c].length) = [c] := by
      simp [List.take, hx]
    rw [splitSeq_cons [c] x rest htake, ih hr]

/-- Splitting on a single character at its first occurrence: the part
before the first `c` becomes the first chunk. -/
theorem splitSeq_single_append (c : Char) (a b : Str) (h : c ∉ a) :
    splitSeq [c] (a ++ c :: b) = a :: splitSeq [c] b := by
  induction a with
  | nil =>
    have : ([] ++ c :: b : Str) = c :: b := rfl
    rw [this]
    rw [splitSeq_sep_start [c] (c :: b) (by simp) (by simp [List.take]) (by simp)]
    simp [List.drop]
  | cons x a' ih =>
    have hx : x ≠ c := fun hxc => h (by simp [hxc])
    have ha' : c ∉ a' := fun hm => h (List.mem_cons_of_mem x hm)
    have htake : ¬ ((x :: a') ++ c :: b).take ([c].length) = [c] := by
      simp [List.take, hx]
    have : ((x :: a') ++ c :: b : Str) = x :: (a' ++ c :: b) := rfl
    rw [this, splitSeq_cons [c] x (a' ++ c :: b) htake, ih ha']

/-- The first chunk of a single-character split is the text before the
first occurrence of the separator. -/
theorem splitSeq_single_append_headI (c : Char) (a b : Str) (h : c ∉ a) :
    (splitSeq [c] (a ++ c :: b)).headI = a := by
  rw [splitSeq_single_append c a b h]
  rfl

/-- `strContains` agrees with the mathematical notion of substring
occurrence. -/
theorem strContains_iff (needle hay : Str) :
    strContains needle hay = true ↔ ∃ pre post, hay = pre ++ needle ++ post := by
  induction hay with
  | nil =>
    simp only [strContains, decide_eq_true_eq]
    constructor
    · intro h
      exact ⟨[], [], by simp [h]⟩
    · rintro ⟨pre, post, hpp⟩
      have hlen := congrArg List.length hpp
      simp only [List.length_append, List.length_nil] at hlen
      exact List.eq_nil_of_length_eq_zero (by omega)
  | cons c rest ih =>
    simp only [strContains, Bool.or_eq_true, decide_eq_true_eq, ih]
    constructor
    · rintro (htake | ⟨pre, post, hpp⟩)
      · refine ⟨[], (c :: rest).drop needle.length, ?_⟩
        conv_lhs => rw [← List.take_append_drop needle.length (c :: rest)]
        rw [htake]
        simp
      · exact ⟨c :: pre, post, by simp [hpp]⟩
    · rintro ⟨pre, post, hpp⟩
      cases pre with
      | nil =>
        left
        simp only [List.nil_append] at hpp
        rw [hpp]
        exact List.take_left needle post
      | cons p ps =>
        right
        simp only [List.cons_append] at hpp
        exact ⟨ps, post, by simpa using congrArg List.tail hpp⟩

/-- A needle is contained in any string having it as a prefix. -/
theorem strContains_append_left (needle post : Str) :
    strContains needle (needle ++ post) = true := by
  rw [strContains_iff]
  exact ⟨[], post, by simp⟩

/-- Every character of a valid float literal is a sign, a digit or a
dot. -/
theorem isPyFloat_mem (s : Str) (h : isPyFloat s = true) (c : Char)
    (hmem : c ∈ s) : c = '+' ∨ c = '-' ∨ c.isDigit = true ∨ c = '.' := by
  unfold isPyFloat at h
  simp only [Bool.and_eq_true, List.all_eq_true] at h
  by_cases hsign : s.take 1 = ['+'] ∨ s.take 1 = ['-']
  · rw [if_pos hsign] at h
    have hsplit : c ∈ s.take 1 ∨ c ∈ s.drop 1 := by
      rw [← List.mem_append, List.take_append_drop]
      exact hmem
    cases hsplit with
    | inl hm =>
      cases hsign with
      | inl h1 => rw [h1] at hm; simp at hm; exact Or.inl hm
      | inr h1 => rw [h1] at hm; simp at hm; exact Or.inr (Or.inl hm)
    | inr hm =>
      have := h.1.1 c hm
      simp only [Bool.or_eq_true, decide_eq_true_eq] at this
      cases this with
      | inl hd => exact Or.inr (Or.inr (Or.inl hd))
      | inr hd => exact Or.inr (Or.inr (Or.inr hd))
  · rw [if_neg hsign] at h
    have := h.1.1 c hmem
    simp only [Bool.or_eq_true, decide_eq_true_eq] at this
    cases this with
    | inl hd => exact Or.inr (Or.inr (Or.inl hd))
    | inr hd => exact Or.inr (Or.inr (Or.inr hd))

/-- A valid float literal contains no tab, space or newline. -/
theorem isPyFloat_no_ws (s : Str) (h : isPyFloat s = true) :
    '\t' ∉ s ∧ ' ' ∉ s ∧ '\n' ∉ s := by
  refine ⟨fun hm => ?_, fun hm => ?_, fun hm => ?_⟩
  · have := isPyFloat_mem s h _ hm
    revert this
    decide
  · have := isPyFloat_mem s h _ hm
    revert this
    decide
  · have := isPyFloat_mem s h _ hm
    revert this
    decide

/-- `parseLine` never produces the `None` outcome: a matched line is
either parsed or raises. -/
theorem parseLine_ne_absent (line : Str) : parseLine line ≠ .absent := by
  unfold parseLine
  split
  · simp
  · split
    · simp
    · split
      · simp
      · split <;> simp

/-- A well-formed cache line parses into its two numeric fields, in
the order they were persisted. -/
theorem parseLine_mkLine (key la lo : Str) (hkey : '\t' ∉ key)
    (hla : isPyFloat la = true) (hlo : isPyFloat lo = true) :
    parseLine (mkLine key la lo) = .found la lo := by
  obtain ⟨hlaT, hlaS, hlaN⟩ := isPyFloat_no_ws la hla
  obtain ⟨hloT, hloS, hloN⟩ := isPyFloat_no_ws lo hlo
  have hrest : '\t' ∉ la ++ ' ' :: (lo ++ ['\n']) := by
    intro hm
    rcases List.mem_append.mp hm with hm1 | hm2
    · exact hlaT hm1
    · rcases List.mem_cons.mp hm2 with hsp | hm3
      · exact absurd hsp (by decide)
      · rcases List.mem_append.mp hm3 with hm4 | hm5
        · exact hloT hm4
        · simp at hm5
  have htb : splitSeq ['\t'] (mkLine key la lo) =
      key :: [la ++ ' ' :: (lo ++ ['\n'])] := by
    rw [mkLine, splitSeq_single_append '\t' key _ hkey,
      splitSeq_single_of_not_mem '\t' _ hrest]
  have hlon : ' ' ∉ lo ++ ['\n'] := by
    intro hm
    rcases List.mem_append.mp hm with hm1 | hm2
    · exact hloS hm1
    · simp at hm2
  have hsp : splitSeq [' '] (la ++ ' ' :: (lo ++ ['\n'])) =
      la :: [lo ++ ['\n']] := by
    rw [splitSeq_single_append ' ' la _ hlaS,
      splitSeq_single_of_not_mem ' ' _ hlon]
  unfold parseLine
  rw [htb]
  simp only [List.drop_succ_cons, List.drop_zero]
  rw [hsp]
  have hdl : (lo ++ ['\n']).dropLast = lo := by
    simp
  simp [hdl, hla, hlo]

/-- Looking a raw address up in a single well-formed line persisted for
its canonical key succeeds and returns the two fields in persisted
order. -/
theorem get_coordinates_mkLine (address la lo : Str)
    (hkey : '\t' ∉ cut_address address)
    (hla : isPyFloat la = true) (hlo : isPyFloat lo = true) :
    get_coordinates address [mkLine (cut_address address) la lo] =
      .found la lo := by
  unfold get_coordinates
  have hmatch : strContains (cut_address address)
      (mkLine (cut_address address) la lo) = true := by
    have : mkLine (cut_address address) la lo =
        cut_address address ++ ('\t' :: (la ++ ' ' :: (lo ++ ['\n']))) := rfl
    rw [this]
    exact strContains_append_left _ _
  rw [List.find?_cons_of_pos _ hmatch]
  exact parseLine_mkLine _ la lo hkey hla hlo

/-- The key under which a line is read back:
`line.split('\t')[0]` recovers the canonical address of a well-formed
line. -/
theorem lineKey_mkLine (key la lo : Str) (hkey : '\t' ∉ key) :
    lineKey (mkLine key la lo) = key := by
  unfold lineKey mkLine
  exact splitSeq_single_append_headI '\t' key _ hkey

/-- C4: canonicalization keeps the last 3 `", "`-separated segments of
the raw address joined by `", "`, leaves an address with fewer than 3
segments unchanged, and is a pure function of the raw address, so two
addresses with the same trailing segments get the same cache key. -/
theorem C4_cut_address_spec (a b : Str) :
    ((splitSeq commaSpace a).length < 3 → cut_address a = a) ∧
    (3 ≤ (splitSeq commaSpace a).length →
      cut_address a = commaSpace.intercalate
        ((splitSeq commaSpace a).drop ((splitSeq commaSpace a).length - 3))) ∧
    ((splitSeq commaSpace a).drop ((splitSeq commaSpace a).length - 3) =
        (splitSeq commaSpace b).drop ((splitSeq commaSpace b).length - 3) →
      cut_address a = cut_address b) := by
  refine ⟨?_, ?_, ?_⟩
  · intro h
    unfold cut_address
    have hz : (splitSeq commaSpace a).length - 3 = 0 := by omega
    rw [hz, List.drop_zero]
    exact intercalate_splitSeq commaSpace (by decide) a
  · intro _
    rfl
  · intro h
    unfold cut_address
    rw [h]

/-- Witness for C4 at the spec's scenarios: `"Paris, France"` (2
segments) is unchanged; the 5-segment Scenario B address keeps its
last 3 segments; an address sharing those trailing segments shares the
key. -/
theorem C4_cut_address_spec_witness :
    ((splitSeq commaSpace (str "Paris, France")).length < 3 ∧
      cut_address (str "Paris, France") = str "Paris, France") ∧
    (3 ≤ (splitSeq commaSpace
        (str "123 Main St, Suite 4, Los Angeles, California, USA")).length ∧
      cut_address (str "123 Main St, Suite 4, Los Angeles, California, USA") =
        str "Los Angeles, California, USA") ∧
    cut_address (str "5 Elm, Los Angeles, California, USA") =
      cut_address (str "123 Main St, Suite 4, Los Angeles, California, USA") :=
  ⟨⟨by decide,
    (C4_cut_address_spec (str "Paris, France") (str "")).1 (by decide)⟩,
   ⟨by decide,
    Eq.trans
      ((C4_cut_address_spec
        (str "123 Main St, Suite 4, Los Angeles, California, USA") (str "")).2.1
        (by decide))
      (by decide)⟩,
   (C4_cut_address_spec (str "5 Elm, Los Angeles, California, USA")
      (str "123 Main St, Suite 4, Los Angeles, California, USA")).2.2
     (by decide)⟩

/-- C2 fails on the code: `get_coordinates` matches by substring
(`if cut_address in baseaddress_and_coordinate:`), so querying the key
`"France"` against a cache whose only entry has the different key
`"Paris, France"` returns that entry's coordinates instead of `None`. -/
theorem C2_counterexample :
    get_coordinates (str "France") [str "Paris, France\t2.3522 48.8566\n"] =
      .found (str "2.3522") (str "48.8566") ∧
    lineKey (str "Paris, France\t2.3522 48.8566\n") ≠ str "France" := by
  decide

/-- C2 (amended): lookup returns `None` exactly when no stored line
contains the canonicalized query as a substring, and otherwise parses
the first line containing it — a substring match, not an exact key
match, so the coordinates can come from a line whose key differs from
the query.  The function is pure in the file's lines (no network
I/O). -/
theorem C2_lookup_amended (address : Str) (lines : List Str) :
    (get_coordinates address lines = .absent ↔
      ∀ line ∈ lines, ¬ ∃ pre post, line = pre ++ cut_address address ++ post) ∧
    (∀ line,
      lines.find? (fun l => strContains (cut_address address) l) = some line →
      get_coordinates address lines = parseLine line) := by
  constructor
  · unfold get_coordinates
    cases hf : lines.find? (fun l => strContains (cut_address address) l) with
    | none =>
      constructor
      · intro _ line hmem hex
        have hfalse := List.find?_eq_none.mp hf line hmem
        exact hfalse ((strContains_iff _ _).mpr hex)
      · intro _
        rfl
    | some line =>
      constructor
      · intro habs
        exact absurd habs (parseLine_ne_absent line)
      · intro hall
        exfalso
        have hmem := List.mem_of_find?_eq_some hf
        have hp := List.find?_some hf
        exact hall line hmem ((strContains_iff _ _).mp hp)
  · intro line hf
    unfold get_coordinates
    rw [hf]

/-- Witness for C2 (amended) at the Paris line. -/
theorem C2_lookup_amended_witness :
    ([str "Paris, France\t2.3522 48.8566\n"].find?
        (fun l => strContains (cut_address (str "France")) l) =
      some (str "Paris, France\t2.3522 48.8566\n")) ∧
    get_coordinates (str "France") [str "Paris, France\t2.3522 48.8566\n"] =
      parseLine (str "Paris, France\t2.3522 48.8566\n") :=
  ⟨by decide,
   (C2_lookup_amended (str "France")
      [str "Paris, France\t2.3522 48.8566\n"]).2 _ (by decide)⟩

/-- C9 fails on the code: a corrupt line (here: no tab separator) that
contains the queried key is fatal — `line.split('\t')[1]` raises — it
is not skipped with a warning. -/
theorem C9_counterexample :
    get_coordinates (str "Paris, France")
      [str "Paris, France 2.3522 48.8566\n"] = .crash := by
  decide

/-- C9 (amended): a corrupt stored line is passed over (with no
warning) only while it does not contain the canonicalized query as a
substring — scanning then continues with the remaining lines; but when
the first line containing the query is malformed, the lookup raises
instead of skipping it. -/
theorem C9_malformed_amended :
    (∀ address bad rest,
      ¬ (∃ pre post, bad = pre ++ cut_address address ++ post) →
      get_coordinates address (bad :: rest) = get_coordinates address rest) ∧
    (∀ address lines line,
      lines.find? (fun l => strContains (cut_address address) l) = some line →
      parseLine line = .crash →
      get_coordinates address lines = .crash) := by
  constructor
  · intro address bad rest hnot
    unfold get_coordinates
    have hb : ¬ strContains (cut_address address) bad = true := by
      intro hsc
      exact hnot ((strContains_iff _ _).mp hsc)
    rw [List.find?_cons_of_neg _ hb]
  · intro address lines line hf hc
    unfold get_coordinates
    rw [hf]
    exact hc

/-- Witness for C9 (amended): an unmatched garbage line is skipped and
scanning continues; a matched tab-less line crashes the lookup. -/
theorem C9_malformed_amended_witness :
    get_coordinates (str "Kyiv, Ukraine") [str "garbage-line-no-tab\n"] =
      get_coordinates (str "Kyiv, Ukraine") [] ∧
    get_coordinates (str "Paris, France") [str "Paris, France 2.3522\n"] =
      .crash :=
  ⟨(C9_malformed_amended).1 (str "Kyiv, Ukraine")
      (str "garbage-line-no-tab\n") []
      (fun hex => absurd ((strContains_iff _ _).mpr hex) (by decide)),
   (C9_malformed_amended).2 (str "Paris, France")
      [str "Paris, France 2.3522\n"] (str "Paris, France 2.3522\n")
      (by decide) (by decide)⟩

/-- Every line present after running the `write_base` loop was either
there before or is the well-formed line of some record whose canonical
address the geocoder resolved. -/
theorem write_baseGo_lines_mem (geo : Str → Option (Str × Str)) :
    ∀ (info : List (Str × Str × Str)) (run : BaseRun) (line : Str),
      line ∈ (write_baseGo geo info run).lines →
      line ∈ run.lines ∨ ∃ p ∈ info, ∃ la lo,
        geo (cut_address p.2.2) = some (la, lo) ∧
        line = mkLine (cut_address p.2.2) la lo := by
  intro info
  induction info with
  | nil =>
    intro run line h
    exact Or.inl h
  | cons p rest ih =>
    intro run line h
    rcases ih (write_base_step geo run p) line h with
      hin | ⟨q, hq, la, lo, hgeo, hline⟩
    · unfold write_base_step at hin
      by_cases hmem : cut_address p.2.2 ∈ run.cashed
      · rw [if_pos hmem] at hin
        exact Or.inl hin
      · rw [if_neg hmem] at hin
        cases hgeo : geo (cut_address p.2.2) with
        | none =>
          rw [hgeo] at hin
          exact Or.inl hin
        | some c =>
          obtain ⟨la, lo⟩ := c
          rw [hgeo] at hin
          simp only [List.mem_append, List.mem_singleton] at hin
          cases hin with
          | inl h1 => exact Or.inl h1
          | inr h2 =>
            exact Or.inr ⟨p, List.mem_cons_self p rest, la, lo, hgeo, h2⟩
    · exact Or.inr ⟨q, List.mem_cons_of_mem p hq, la, lo, hgeo, hline⟩

/-- C3 fails on the code: `write_base` persists
`address + '\t' + str(location.latitude) + ' ' +
str(location.longitude) + '\n'` — latitude first — so for Paris
(latitude 48.8566, longitude 2.3522) the persisted line is not the
claimed longitude-first `"Paris, France\t2.3522 48.8566\n"`. -/
theorem C3_counterexample :
    (write_base geoParis [(str "F", str "1999", str "Paris, France")]).lines =
      [str "Paris, France\t48.8566 2.3522\n"] ∧
    (write_base geoParis [(str "F", str "1999", str "Paris, France")]).lines ≠
      [str "Paris, France\t2.3522 48.8566\n"] := by
  decide

/-- C3 (amended): every line persisted by the cache builder has the
form `"<canonicalAddress>\t<latitude> <longitude>\n"` — the first
numeric field is the latitude and the second the longitude — and a
subsequent lookup of that line returns the two fields in the persisted
order, i.e. `(latitude, longitude)`, matching the `(lat, lon)` return
documented on `get_coordinates`. -/
theorem C3_line_format_amended (geo : Str → Option (Str × Str))
    (info : List (Str × Str × Str)) :
    ∀ line ∈ (write_base geo info).lines, ∃ p ∈ info, ∃ la lo,
      geo (cut_address p.2.2) = some (la, lo) ∧
      line = mkLine (cut_address p.2.2) la lo ∧
      ('\t' ∉ cut_address p.2.2 → isPyFloat la = true → isPyFloat lo = true →
        get_coordinates p.2.2 [line] = .found la lo) := by
  intro line hline
  rcases write_baseGo_lines_mem geo info ⟨[], [], []⟩ line hline with h0 | hgood
  · simp at h0
  · obtain ⟨p, hp, la, lo, hgeo, heq⟩ := hgood
    refine ⟨p, hp, la, lo, hgeo, heq, ?_⟩
    intro hkey hla hlo
    rw [heq]
    exact get_coordinates_mkLine p.2.2 la lo hkey hla hlo

/-- Witness for C3 (amended) at the Paris run: the single persisted
line is latitude-first and looks up as `(48.8566, 2.3522)`. -/
theorem C3_line_format_amended_witness :
    (str "Paris, France\t48.8566 2.3522\n" ∈
      (write_base geoParis [(str "F", str "1999", str "Paris, France")]).lines) ∧
    ∃ p ∈ [(str "F", str "1999", str "Paris, France")], ∃ la lo,
      geoParis (cut_address p.2.2) = some (la, lo) ∧
      str "Paris, France\t48.8566 2.3522\n" = mkLine (cut_address p.2.2) la lo ∧
      ('\t' ∉ cut_address p.2.2 → isPyFloat la = true → isPyFloat lo = true →
        get_coordinates p.2.2 [str "Paris, France\t48.8566 2.3522\n"] =
          .found la lo) :=
  ⟨by decide,
   C3_line_format_amended geoParis [(str "F", str "1999", str "Paris, France")]
     _ (by decide)⟩

/-- If fewer than 10 distinct coordinate pairs remain reachable, the
walk falls off the end of the list and raises. -/
theorem filter_go_none (rest : List StatItem) :
    ∀ seen acc, seen.card ≤ 10 →
      (seen ∪ (rest.map (fun x => x.coords)).toFinset).card < 10 →
      filter_go seen acc rest = none := by
  induction rest with
  | nil =>
    intro seen acc _ hlt
    unfold filter_go
    rw [if_neg]
    intro h10
    simp only [List.map_nil, List.toFinset_nil, Finset.union_empty] at hlt
    omega
  | cons x rest' ih =>
    intro seen acc hle hlt
    have hsub : seen.card ≤ (seen ∪ ((x :: rest').map (fun x => x.coords)).toFinset).card :=
      Finset.card_le_card Finset.subset_union_left
    have hne : ¬ seen.card = 10 := by omega
    unfold filter_go
    rw [if_neg hne]
    apply ih
    · have := Finset.card_insert_le x.coords seen
      omega
    · have hrw : insert x.coords seen ∪ (rest'.map (fun x => x.coords)).toFinset =
          seen ∪ ((x :: rest').map (fun x => x.coords)).toFinset := by
        simp only [List.map_cons, List.toFinset_cons, Finset.insert_union,
          Finset.union_insert]
      rw [hrw]
      exact hlt

/-- With at least 10 distinct coordinate pairs reachable, the walk
stops having appended an initial segment of the list that covers
exactly 10 distinct pairs. -/
theorem filter_go_some (rest : List StatItem) :
    ∀ seen acc, seen.card ≤ 10 →
      10 ≤ (seen ∪ (rest.map (fun x => x.coords)).toFinset).card →
      ∃ walked rem, filter_go seen acc rest = some (acc ++ walked) ∧
        rest = walked ++ rem ∧
        (seen ∪ (walked.map (fun x => x.coords)).toFinset).card = 10 := by
  induction rest with
  | nil =>
    intro seen acc hle hge
    simp only [List.map_nil, List.toFinset_nil, Finset.union_empty] at hge
    have h10 : seen.card = 10 := by omega
    refine ⟨[], [], ?_, rfl, ?_⟩
    · unfold filter_go
      rw [if_pos h10, List.append_nil]
    · simp only [List.map_nil, List.toFinset_nil, Finset.union_empty]
      exact h10
  | cons x rest' ih =>
    intro seen acc hle hge
    by_cases h10 : seen.card = 10
    · refine ⟨[], x :: rest', ?_, rfl, ?_⟩
      · unfold filter_go
        rw [if_pos h10, List.append_nil]
      · simp only [List.map_nil, List.toFinset_nil, Finset.union_empty]
        exact h10
    · have hrw : insert x.coords seen ∪ (rest'.map (fun x => x.coords)).toFinset =
          seen ∪ ((x :: rest').map (fun x => x.coords)).toFinset := by
        simp only [List.map_cons, List.toFinset_cons, Finset.insert_union,
          Finset.union_insert]
      have hle' : (insert x.coords seen).card ≤ 10 := by
        have := Finset.card_insert_le x.coords seen
        omega
      have hge' : 10 ≤ (insert x.coords seen ∪
          (rest'.map (fun x => x.coords)).toFinset).card := by
        rw [hrw]; exact hge
      obtain ⟨w', rem, heq, hsplit, hcard⟩ :=
        ih (insert x.coords seen) (acc ++ [x]) hle' hge'
      refine ⟨x :: w', rem, ?_, ?_, ?_⟩
      · unfold filter_go
        rw [if_neg h10, heq]
        simp
      · rw [hsplit]
        rfl
      · have hrw2 : seen ∪ ((x :: w').map (fun x => x.coords)).toFinset =
            insert x.coords seen ∪ (w'.map (fun x => x.coords)).toFinset := by
          simp only [List.map_cons, List.toFinset_cons, Finset.insert_union,
            Finset.union_insert]
        rw [hrw2]
        exact hcard

/-- C1: `filter_stat` (with `k` fixed at 10) walks the ranked list in
order; when at least 10 distinct coordinate pairs occur in the list it
returns the initial segment walked, covering exactly 10 distinct
pairs; when the list is exhausted first, the `stat[index]` access
raises (the failure the design names `InsufficientCandidatesError`) —
it never returns fewer distinct locations than requested. -/
theorem C1_filter_stat_topk (stat : List StatItem) :
    (10 ≤ ((stat.map (fun x => x.coords)).toFinset.card) →
      ∃ walked rem, filter_stat stat = some walked ∧ stat = walked ++ rem ∧
        (walked.map (fun x => x.coords)).toFinset.card = 10) ∧
    (((stat.map (fun x => x.coords)).toFinset.card) < 10 →
      filter_stat stat = none) := by
  constructor
  · intro h
    obtain ⟨w, rem, heq, hsplit, hcard⟩ :=
      filter_go_some stat ∅ [] (by simp) (by simpa using h)
    refine ⟨w, rem, ?_, hsplit, ?_⟩
    · unfold filter_stat
      rw [heq]
      simp
    · simpa using hcard
  · intro h
    exact filter_go_none stat ∅ [] (by simp) (by simpa using h)

/-- Witness for C1: a ten-distinct-location list succeeds with all 10
pairs; the empty list (0 distinct pairs) raises. -/
theorem C1_filter_stat_topk_witness :
    (10 ≤ ((tenDistinct.map (fun x => x.coords)).toFinset.card) ∧
      ∃ walked rem, filter_stat tenDistinct = some walked ∧
        tenDistinct = walked ++ rem ∧
        (walked.map (fun x => x.coords)).toFinset.card = 10) ∧
    ((([] : List StatItem).map (fun x => x.coords)).toFinset.card < 10 ∧
      filter_stat [] = none) :=
  ⟨⟨by decide, (C1_filter_stat_topk tenDistinct).1 (by decide)⟩,
   ⟨by decide, (C1_filter_stat_topk []).2 (by decide)⟩⟩

/-- When no record's lookup crashes, the pre-sort stat list is exactly
the retained records in input order. -/
theorem create_statAux_eq (dist : Str × Str → ℚ) (cacheLines : List Str) :
    ∀ nas, (∀ fa ∈ nas, get_coordinates fa.2 cacheLines ≠ .crash) →
      create_statAux dist cacheLines nas =
        some (keptItems dist cacheLines nas) := by
  intro nas
  induction nas with
  | nil => intro _; rfl
  | cons fa rest ih =>
    intro h
    obtain ⟨film, address⟩ := fa
    have hrest := ih (fun fa hm => h fa (List.mem_cons_of_mem _ hm))
    have hhead := h (film, address) (List.mem_cons_self _ _)
    cases hg : get_coordinates address cacheLines with
    | crash => exact absurd hg hhead
    | absent =>
      unfold create_statAux keptItems
      unfold keptItems at hrest
      simp only [List.filterMap_cons]
      simp only [hg]
      exact hrest
    | found la lo =>
      unfold create_statAux keptItems
      unfold keptItems at hrest
      simp only [List.filterMap_cons]
      simp only [hg, hrest, Option.map_some']

/-- Filtering to one distance value commutes with an ordered insert:
the inserted item lands before every equal-distance item because the
items it skips are strictly closer. -/
theorem filter_orderedInsert (d : ℚ) (x : StatItem) (l : List StatItem) :
    (List.orderedInsert distLE x l).filter (fun y => decide (y.dist = d)) =
      if x.dist = d then
        x :: l.filter (fun y => decide (y.dist = d))
      else l.filter (fun y => decide (y.dist = d)) := by
  induction l with
  | nil =>
    by_cases hxd : x.dist = d
    · simp [List.orderedInsert, List.filter, hxd]
    · simp [List.orderedInsert, List.filter, hxd]
  | cons b l ih =>
    by_cases hr : distLE x b
    · simp only [List.orderedInsert, if_pos hr]
      by_cases hxd : x.dist = d <;> simp [List.filter_cons, hxd]
    · simp only [List.orderedInsert, if_neg hr]
      have hblt : b.dist < x.dist := not_le.mp hr
      by_cases hbd : b.dist = d
      · have hxd : ¬ x.dist = d := by
          intro hh
          rw [hh, hbd] at hblt
          exact lt_irrefl d hblt
        simp [List.filter_cons, hbd, hxd, ih]
      · by_cases hxd : x.dist = d
        · simp [List.filter_cons, hbd, hxd, ih]
        · simp [List.filter_cons, hbd, hxd, ih]

/-- Insertion sort under `distLE` is stable: for each distance value,
the equal-distance items appear in their input order. -/
theorem filter_insertionSort (d : ℚ) (l : List StatItem) :
    (List.insertionSort distLE l).filter (fun y => decide (y.dist = d)) =
      l.filter (fun y => decide (y.dist = d)) := by
  induction l with
  | nil => rfl
  | cons x l ih =>
    show (List.orderedInsert distLE x
      (List.insertionSort distLE l)).filter _ = _
    rw [filter_orderedInsert]
    by_cases hxd : x.dist = d
    · rw [if_pos hxd, ih, List.filter_cons]
      simp [hxd]
    · rw [if_neg hxd, ih, List.filter_cons]
      simp [hxd]

/-- C5: when no lookup crashes, `create_stat` silently drops the
records whose canonical address is not found, keeps one entry with a
computed distance for each of the rest, and returns them sorted
ascending by distance with equal distances in input order (a stable
sort, stated per distance value). -/
theorem C5_create_stat_spec (dist : Str × Str → ℚ) (nas : List (Str × Str))
    (cacheLines : List Str)
    (h : ∀ fa ∈ nas, get_coordinates fa.2 cacheLines ≠ .crash) :
    ∃ out, create_stat dist nas cacheLines = some out ∧
      out.Perm (keptItems dist cacheLines nas) ∧
      out.Sorted distLE ∧
      ∀ d : ℚ, out.filter (fun y => decide (y.dist = d)) =
        (keptItems dist cacheLines nas).filter (fun y => decide (y.dist = d)) := by
  refine ⟨List.insertionSort distLE (keptItems dist cacheLines nas),
    ?_, ?_, ?_, ?_⟩
  · unfold create_stat
    rw [create_statAux_eq dist cacheLines nas h]
    rfl
  · exact List.perm_insertionSort distLE _
  · exact List.sorted_insertionSort distLE _
  · intro d
    exact filter_insertionSort d _

/-- Witness for C5: one cached record and one uncached record; the
uncached one is dropped without error. -/
theorem C5_create_stat_spec_witness :
    (∀ fa ∈ [(str "A", str "Paris, France"), (str "B", str "Kyiv, Ukraine")],
      get_coordinates fa.2 [str "Paris, France\t2.3522 48.8566\n"] ≠
        .crash) ∧
    ∃ out, create_stat (fun _ => 0)
        [(str "A", str "Paris, France"), (str "B", str "Kyiv, Ukraine")]
        [str "Paris, France\t2.3522 48.8566\n"] = some out ∧
      out.Perm (keptItems (fun _ => 0)
        [str "Paris, France\t2.3522 48.8566\n"]
        [(str "A", str "Paris, France"), (str "B", str "Kyiv, Ukraine")]) ∧
      out.Sorted distLE ∧
      ∀ d : ℚ, out.filter (fun y => decide (y.dist = d)) =
        (keptItems (fun _ => 0)
          [str "Paris, France\t2.3522 48.8566\n"]
          [(str "A", str "Paris, France"),
            (str "B", str "Kyiv, Ukraine")]).filter
          (fun y => decide (y.dist = d)) :=
  ⟨by decide,
   C5_create_stat_spec (fun _ => 0)
     [(str "A", str "Paris, France"), (str "B", str "Kyiv, Ukraine")]
     [str "Paris, France\t2.3522 48.8566\n"] (by decide)⟩

/-- C6 fails on the code: the maintenance pass only collapses
*identical* lines, so two persisted lines with the same canonical key
but different coordinates both survive it. -/
theorem C6_counterexample :
    create_file_with_unique_addresses
      [str "Paris, France\t1.0 2.0\n", str "Paris, France\t3.0 4.0\n"] =
      [str "Paris, France\t1.0 2.0\n", str "Paris, France\t3.0 4.0\n"] ∧
    lineKey (str "Paris, France\t1.0 2.0\n") =
      lineKey (str "Paris, France\t3.0 4.0\n") ∧
    str "Paris, France\t1.0 2.0\n" ≠ str "Paris, France\t3.0 4.0\n" := by
  decide

/-- C6 (amended): after the maintenance pass no *line* repeats and the
set of lines is unchanged — exact duplicate lines collapse to one, but
lines sharing a key with different coordinates all remain — and the
pass is idempotent. -/
theorem C6_dedup_amended (lines : List Str) :
    (create_file_with_unique_addresses lines).Nodup ∧
    (∀ l, l ∈ create_file_with_unique_addresses lines ↔ l ∈ lines) ∧
    create_file_with_unique_addresses
        (create_file_with_unique_addresses lines) =
      create_file_with_unique_addresses lines := by
  refine ⟨List.nodup_dedup lines, fun l => List.mem_dedup, ?_⟩
  exact List.dedup_idem

/-- C8: a requested year with no film records in the grouped record
set makes the query flow fail at the year lookup
(`films_by_year[year]` raises, surfaced as the design's
`UnknownYearError`) — an explicit error, never a silent empty
result. -/
theorem C8_unknown_year (imdbLines : List Str) (year : Str)
    (dist : Str × Str → ℚ) (cacheLines : List Str)
    (info : List (Str × Str × Str))
    (hparse : parse_lines ((imdbLines.drop 14).dropLast) = some info)
    (hyear : dictFind (create_dict info) year = none) :
    webmap_main imdbLines year dist cacheLines = .error .unknownYear := by
  unfold webmap_main
  simp only [hparse, hyear]

/-- Witness for C8: an empty dataset has no records for `"1994"`. -/
theorem C8_unknown_year_witness :
    parse_lines ((([] : List Str).drop 14).dropLast) = some [] ∧
    dictFind (create_dict []) (str "1994") = none ∧
    webmap_main [] (str "1994") (fun _ => 0) [] = .error .unknownYear :=
  ⟨by decide, by decide,
   C8_unknown_year [] (str "1994") (fun _ => 0) [] [] (by decide) (by decide)⟩

/-- C7: one reconciliation pass — recompute the not-found set from the
cache, then attempt each of its addresses, appending lines for the
resolved ones — never enlarges the unresolved set (cached keys cannot
re-enter, since the stored-key set only grows), and every address the
geocoder resolves during the pass leaves it. -/
theorem C7_reconciliation_monotone (geo : Str → Option (Str × Str))
    (locbase : List Str) (clean_info : List (Str × Str × Str))
    (notFound : List Str)
    (hT : ∀ p ∈ clean_info, '\t' ∉ cut_address p.2.2)
    (hNF : notFound.toFinset = find_not_found_addresses locbase clean_info) :
    find_not_found_addresses
        (continuous_location_update geo notFound locbase) clean_info ⊆
      find_not_found_addresses locbase clean_info ∧
    ∀ a ∈ notFound, (geo a).isSome = true →
      a ∉ find_not_found_addresses
        (continuous_location_update geo notFound locbase) clean_info := by
  constructor
  · unfold find_not_found_addresses continuous_location_update
    apply Finset.sdiff_subset_sdiff (Finset.Subset.refl _)
    intro k hk
    rw [List.mem_toFinset] at hk ⊢
    rw [List.map_append, List.mem_append]
    exact Or.inl hk
  · intro a ha hsome
    have haF : a ∈ find_not_found_addresses locbase clean_info := by
      rw [← hNF]
      exact List.mem_toFinset.mpr ha
    have haAll : a ∈
        (clean_info.map (fun p => cut_address p.2.2 ++ ['\n'])).toFinset := by
      unfold find_not_found_addresses at haF
      exact (Finset.mem_sdiff.mp haF).1
    rw [List.mem_toFinset, List.mem_map] at haAll
    obtain ⟨p, hp, hap⟩ := haAll
    obtain ⟨c, hc⟩ := Option.isSome_iff_exists.mp hsome
    have hnew : mkLine a.dropLast c.1 c.2 ∈ notFound.filterMap
        (fun a => (geo a).map (fun c => mkLine a.dropLast c.1 c.2)) := by
      rw [List.mem_filterMap]
      exact ⟨a, ha, by rw [hc]; rfl⟩
    have hdl : a.dropLast = cut_address p.2.2 := by
      rw [← hap]
      simp
    intro hmem
    unfold find_not_found_addresses at hmem
    apply (Finset.mem_sdiff.mp hmem).2
    rw [List.mem_toFinset, List.mem_map]
    refine ⟨mkLine a.dropLast c.1 c.2, ?_, ?_⟩
    · unfold continuous_location_update
      rw [List.mem_append]
      exact Or.inr hnew
    · rw [lineKey_mkLine _ _ _ (by rw [hdl]; exact hT p hp), hdl]
      exact hap

/-- Witness for C7: with one record and an empty cache, the single
not-found address is resolved by the pass and leaves the set. -/
theorem C7_reconciliation_monotone_witness :
    ((∀ p ∈ [(str "F", str "1999", str "Paris, France")],
        '\t' ∉ cut_address p.2.2) ∧
      ([str "Paris, France\n"] : List Str).toFinset =
        find_not_found_addresses []
          [(str "F", str "1999", str "Paris, France")]) ∧
    str "Paris, France\n" ∉ find_not_found_addresses
      (continuous_location_update geoAny [str "Paris, France\n"] [])
      [(str "F", str "1999", str "Paris, France")] :=
  ⟨⟨by decide, by decide⟩,
   (C7_reconciliation_monotone geoAny []
      [(str "F", str "1999", str "Paris, France")]
      [str "Paris, France\n"] (by decide) (by decide)).2
     _ (by decide) (by decide)⟩

/-- Loop invariant of `write_base`: the seen-set equals the list of
geocoder calls, no key is called twice, and the keys of the persisted
lines form a sublist of the calls. -/
theorem write_baseGo_inv (geo : Str → Option (Str × Str)) :
    ∀ (info : List (Str × Str × Str)) (run : BaseRun),
      (∀ p ∈ info, '\t' ∉ cut_address p.2.2) →
      run.cashed = run.calls → run.calls.Nodup →
      (run.lines.map lineKey).Sublist run.calls →
      ((write_baseGo geo info run).cashed =
          (write_baseGo geo info run).calls ∧
        (write_baseGo geo info run).calls.Nodup ∧
        ((write_baseGo geo info run).lines.map lineKey).Sublist
          (write_baseGo geo info run).calls) := by
  intro info
  induction info with
  | nil =>
    intro run _ h1 h2 h3
    exact ⟨h1, h2, h3⟩
  | cons p rest ih =>
    intro run hT h1 h2 h3
    have hTrest : ∀ q ∈ rest, '\t' ∉ cut_address q.2.2 :=
      fun q hq => hT q (List.mem_cons_of_mem p hq)
    have hTp : '\t' ∉ cut_address p.2.2 := hT p (List.mem_cons_self p rest)
    show (write_baseGo geo rest (write_base_step geo run p)).cashed = _ ∧ _ ∧ _
    apply ih (write_base_step geo run p) hTrest
    all_goals
      unfold write_base_step
      by_cases hmem : cut_address p.2.2 ∈ run.cashed
    · rw [if_pos hmem]; exact h1
    · rw [if_neg hmem]
      cases hg : geo (cut_address p.2.2) with
      | none => simp [h1]
      | some c => obtain ⟨la, lo⟩ := c; simp [h1]
    · rw [if_pos hmem]; exact h2
    · rw [if_neg hmem]
      have hnotc : cut_address p.2.2 ∉ run.calls := by
        rw [← h1]; exact hmem
      cases hg : geo (cut_address p.2.2) with
      | none =>
        simp only [List.nodup_append, List.nodup_cons, List.nodup_nil]
        exact ⟨h2, ⟨by simp, by simp⟩, by
          simp only [List.disjoint_singleton]
          exact hnotc⟩
      | some c =>
        obtain ⟨la, lo⟩ := c
        simp only [List.nodup_append, List.nodup_cons, List.nodup_nil]
        exact ⟨h2, ⟨by simp, by simp⟩, by
          simp only [List.disjoint_singleton]
          exact hnotc⟩
    · rw [if_pos hmem]; exact h3
    · rw [if_neg hmem]
      cases hg : geo (cut_address p.2.2) with
      | none =>
        exact h3.trans (List.sublist_append_left run.calls _)
      | some c =>
        obtain ⟨la, lo⟩ := c
        show ((run.lines ++ [mkLine (cut_address p.2.2) la lo]).map
          lineKey).Sublist (run.calls ++ [cut_address p.2.2])
        rw [List.map_append, List.map_singleton,
          lineKey_mkLine _ _ _ hTp]
        exact h3.append (List.Sublist.refl _)

/-- C10: within one `write_base` run, each distinct canonical key is
submitted to the external geocoder at most once and at most one cache
line carries it — duplicate raw addresses with the same key cause no
repeated call and no duplicate persisted line. -/
theorem C10_write_base_dedup (geo : Str → Option (Str × Str))
    (info : List (Str × Str × Str))
    (hT : ∀ p ∈ info, '\t' ∉ cut_address p.2.2) :
    (write_base geo info).calls.Nodup ∧
    ((write_base geo info).lines.map lineKey).Nodup := by
  obtain ⟨h1, h2, h3⟩ := write_baseGo_inv geo info ⟨[], [], []⟩ hT rfl
    (by simp) (by simp)
  exact ⟨h2, h2.sublist h3⟩

/-- Witness for C10: two records with the same canonical key produce
one geocoder call and one line. -/
theorem C10_write_base_dedup_witness :
    (∀ p ∈ [(str "A", str "1999", str "Paris, France"),
        (str "B", str "2001", str "Paris, France")],
      '\t' ∉ cut_address p.2.2) ∧
    ((write_base geoParis
        [(str "A", str "1999", str "Paris, France"),
          (str "B", str "2001", str "Paris, France")]).calls.Nodup ∧
      ((write_base geoParis
        [(str "A", str "1999", str "Paris, France"),
          (str "B", str "2001", str "Paris, France")]).lines.map
        lineKey).Nodup) :=
  ⟨by decide,
   C10_write_base_dedup geoParis
     [(str "A", str "1999", str "Paris, France"),
       (str "B", str "2001", str "Paris, France")] (by decide)⟩
